import Mathlib

/-!
# qt-sqlite-orm: the `QString` column adapter

A shallow embedding of `src/qt-sqlite-orm.h`: the four `sqlite_orm`
specialisations for `QString` (`type_printer`, `statement_binder`,
`field_printer`, `row_extractor`).

The adapter is a thin layer over three host libraries, and what it computes is
what they compute, so the calls it makes are embedded with it:

* Qt: `QString::toStdString` and `QString::fromStdString`, that is
  `QString::toUtf8` and `QString::fromUtf8`. The codec follows Qt's
  `QUtf8::convertFromUnicode` and `QUtf8::convertToUnicode` with
  `QUtf8Functions::toUtf8` and `fromUtf8` (Qt 5 and Qt 6): a surrogate outside
  a pair is encoded as `'?'`, an undecodable byte is decoded as U+FFFD, and a
  UTF-8 byte-order mark at the start of the input is skipped by the decoder.
* the C++ standard library: `std::string(const char*)` and `c_str`.
* `sqlite_orm` and SQLite: the string binder and the column access are
  parameters of the adapter's functions; a reference engine is given for
  concrete runs.
-/

namespace QtSqliteOrm

/-! ## Host string types -/

/-- One `char` of a `std::string` or of C text, as an unsigned 8-bit value. -/
abbrev Byte := Fin 256

/-- One UTF-16 code unit of a `QString` (`QChar`, an unsigned 16-bit value). -/
abbrev QChar := Fin 65536

/-- The host string type `QString`: a sequence of UTF-16 code units. -/
abbrev QString := List QChar

/-- The byte string type `std::string`: a sequence of bytes, embedded zero bytes allowed. -/
abbrev StdString := List Byte

/-- Conversion to `uchar`: keeps the low eight bits. -/
def byte (n : Nat) : Byte := Fin.ofNat n

/-- Conversion to `ushort`: keeps the low sixteen bits. -/
def unit16 (n : Nat) : QChar := Fin.ofNat n

/-- `QChar::isSurrogate`: the code unit lies in `U+D800 .. U+DFFF`. -/
def isSurrogate (u : Nat) : Bool := decide (0xD800 ≤ u ∧ u < 0xE000)

/-- `QChar::isHighSurrogate`: the code unit lies in `U+D800 .. U+DBFF`. -/
def isHighSurrogate (u : Nat) : Bool := decide (0xD800 ≤ u ∧ u < 0xDC00)

/-- `QChar::isLowSurrogate`: the code unit lies in `U+DC00 .. U+DFFF`. -/
def isLowSurrogate (u : Nat) : Bool := decide (0xDC00 ≤ u ∧ u < 0xE000)

/-- `QChar::surrogateToUcs4`: `(high << 10) + low - 0x35fdc00`. -/
def surrogateToUcs4 (high low : Nat) : Nat := high * 1024 + low - 0x35FDC00

/-- `QChar::highSurrogate`: `(ucs4 >> 10) + 0xd7c0`. -/
def highSurrogate (ucs4 : Nat) : Nat := ucs4 / 1024 + 0xD7C0

/-- `QChar::lowSurrogate`: `ucs4 % 0x400 + 0xdc00`. -/
def lowSurrogate (ucs4 : Nat) : Nat := ucs4 % 1024 + 0xDC00

/-- The byte `'?'` that the encoder writes for a code unit it cannot encode. -/
def questionMark : Byte := 0x3F

/-- `QChar::ReplacementCharacter` (U+FFFD), written by the decoder for a byte it cannot decode. -/
def ReplacementCharacter : QChar := 0xFFFD

/-- The encoder loop of `QString::toUtf8` (`QUtf8::convertFromUnicode` around
`QUtf8Functions::toUtf8`): one to three bytes for a code unit outside the
surrogate range, four bytes for a high surrogate followed by a low surrogate,
and the byte `'?'` for a surrogate that is not part of such a pair (only the
offending unit is consumed). Masks and shifts are written arithmetically:
`0x80 | (x & 0x3f)` is `0x80 + x % 64`, `x >> 6` is `x / 64`. -/
def convertFromUnicode : List QChar → List Byte
  | [] => []
  | [u] =>
    if u.val < 0x80 then [byte u.val]
    else if u.val < 0x800 then [byte (0xC0 + u.val / 64), byte (0x80 + u.val % 64)]
    else if !isSurrogate u.val then
      [byte (0xE0 + u.val / 4096), byte (0x80 + u.val / 64 % 64), byte (0x80 + u.val % 64)]
    else [questionMark]
  | u :: low :: src =>
    if u.val < 0x80 then byte u.val :: convertFromUnicode (low :: src)
    else if u.val < 0x800 then
      byte (0xC0 + u.val / 64) :: byte (0x80 + u.val % 64) :: convertFromUnicode (low :: src)
    else if !isSurrogate u.val then
      byte (0xE0 + u.val / 4096) :: byte (0x80 + u.val / 64 % 64) :: byte (0x80 + u.val % 64)
        :: convertFromUnicode (low :: src)
    else if isHighSurrogate u.val && isLowSurrogate low.val then
      let ucs4 := surrogateToUcs4 u.val low.val
      byte (0xF0 + ucs4 / 262144 % 16) :: byte (0x80 + ucs4 / 4096 % 64)
        :: byte (0x80 + ucs4 / 64 % 64) :: byte (0x80 + ucs4 % 64) :: convertFromUnicode src
    else questionMark :: convertFromUnicode (low :: src)

/-- `QString::toStdString`: the UTF-8 bytes of the string (`toUtf8().toStdString()`). -/
def toStdString (s : QString) : StdString := convertFromUnicode s

/-- `isContinuationByte`: `(b & 0xc0) == 0x80`. -/
def isContinuationByte (b : Nat) : Bool := decide (0x80 ≤ b ∧ b < 0xC0)

/-- The final checks and output of `QUtf8Functions::fromUtf8` on a decoded
value `uc` read from `charsNeeded` bytes: overlong forms, surrogates and values
above U+10FFFF are errors; otherwise one code unit, or a surrogate pair. -/
def appendDecoded (charsNeeded min_uc uc : Nat) : Option (List QChar × Nat) :=
  if uc < min_uc then none
  else if isSurrogate uc || decide (uc > 0x10FFFF) then none
  else if uc < 0x10000 then some ([unit16 uc], charsNeeded)
  else some ([unit16 (highSurrogate uc), unit16 (lowSurrogate uc)], charsNeeded)

/-- `QUtf8Functions::fromUtf8<QUtf8BaseTraits>` on the first byte `b` with the
rest of the input `src`: `none` on any error (a negative result in the
source), otherwise the code units written and `charsNeeded`, the number of
bytes the character occupies. -/
def fromUtf8Char (b : Byte) (src : List Byte) : Option (List QChar × Nat) :=
  if b.val < 0x80 then some ([unit16 b.val], 1)
  else if b.val ≤ 0xC1 then none
  else if b.val < 0xE0 then
    match src with
    | b1 :: _ =>
      if isContinuationByte b1.val then appendDecoded 2 0x80 (b.val % 32 * 64 + b1.val % 64)
      else none
    | _ => none
  else if b.val < 0xF0 then
    match src with
    | b1 :: b2 :: _ =>
      if isContinuationByte b1.val && isContinuationByte b2.val then
        appendDecoded 3 0x800 ((b.val % 16 * 64 + b1.val % 64) * 64 + b2.val % 64)
      else none
    | _ => none
  else if b.val < 0xF5 then
    match src with
    | b1 :: b2 :: b3 :: _ =>
      if isContinuationByte b1.val && isContinuationByte b2.val
          && isContinuationByte b3.val then
        appendDecoded 4 0x10000
          (((b.val % 8 * 64 + b1.val % 64) * 64 + b2.val % 64) * 64 + b3.val % 64)
      else none
    | _ => none
  else none

/-- The decoder loop of `QUtf8::convertToUnicode`. `skip` is the number of
bytes the read pointer still has to advance over (the `advanceByte(src,
charsNeeded - 1)` of the last decoded character); at `skip = 0` the next byte
is decoded, and a byte that cannot be decoded yields one U+FFFD and is the only
byte consumed. -/
def decodeLoop : Nat → List Byte → List QChar
  | _, [] => []
  | skip + 1, _ :: src => decodeLoop skip src
  | 0, b :: src =>
    match fromUtf8Char b src with
    | some (units, charsNeeded) => units ++ decodeLoop (charsNeeded - 1) src
    | none => ReplacementCharacter :: decodeLoop 0 src

/-- `QUtf8::convertToUnicode` (stateless, as `QString::fromUtf8` calls it): an
initial UTF-8 byte-order mark `EF BB BF` is skipped, the rest is decoded. -/
def convertToUnicode : List Byte → List QChar
  | b0 :: b1 :: b2 :: src =>
    if b0.val = 0xEF ∧ b1.val = 0xBB ∧ b2.val = 0xBF then decodeLoop 0 src
    else decodeLoop 0 (b0 :: b1 :: b2 :: src)
  | src => decodeLoop 0 src

/-- `QString::fromStdString`: `fromUtf8(str.data(), str.size())`. -/
def fromStdString (str : StdString) : QString := convertToUnicode str

/-- `QString::isValidUtf16`: every high surrogate is followed by a low
surrogate and every low surrogate follows a high one. -/
def isValidUtf16 : QString → Bool
  | [] => true
  | [u] => !isSurrogate u.val
  | u :: low :: src =>
    if !isSurrogate u.val then isValidUtf16 (low :: src)
    else isHighSurrogate u.val && isLowSurrogate low.val && isValidUtf16 src

/-- The string with every surrogate that is not part of a high/low pair
replaced by `'?'` (U+003F), the code unit whose encoding the encoder writes in
its place. -/
def replaceLoneSurrogates : QString → QString
  | [] => []
  | [u] => if !isSurrogate u.val then [u] else [0x3F]
  | u :: low :: src =>
    if !isSurrogate u.val then u :: replaceLoneSurrogates (low :: src)
    else if isHighSurrogate u.val && isLowSurrogate low.val then
      u :: low :: replaceLoneSurrogates src
    else 0x3F :: replaceLoneSurrogates (low :: src)

/-! ## Host C text -/

/-- A C text pointer (`const char*`): `none` is the null pointer, `some mem`
a pointer to the bytes `mem`, the memory from the pointer to the end of its
buffer. -/
abbrev CText := Option (List Byte)

/-- `std::string::c_str`: the bytes of the string followed by a terminating zero byte. -/
def c_str (s : StdString) : List Byte := s ++ [0]

/-- The bytes of a buffer before its first zero byte (what `strlen` measures). -/
def upToTerminator (mem : List Byte) : List Byte := mem.takeWhile (fun b => b != 0)

/-- `std::string(const char*)`, the implicit conversion at the call
`QString::fromStdString(row_value)`: the bytes before the first zero byte.
The null pointer and a buffer without terminator are undefined behaviour,
modelled as `none`. -/
def stringFromCText : CText → Option StdString
  | none => none
  | some mem => if (0 : Byte) ∈ mem then some (upToTerminator mem) else none

/-! ## Host ORM and storage engine -/

/-- Modelled from the spec: the host ORM's printer classes (`text_printer`,
`integer_printer`, `real_printer` of `sqlite_orm.h`, not part of the source
file) are type tags whose `print()` is the SQL affinity string. -/
structure Printer where
  /-- The SQL affinity string. -/
  print : String
deriving DecidableEq

/-- Modelled from the spec: the host `text_printer`, affinity `TEXT`. -/
def text_printer : Printer := ⟨"TEXT"⟩

/-- Modelled from the spec: the host `integer_printer`, affinity `INTEGER`. -/
def integer_printer : Printer := ⟨"INTEGER"⟩

/-- Modelled from the spec: the host `real_printer`, affinity `REAL`. -/
def real_printer : Printer := ⟨"REAL"⟩

/-- The result code `SQLITE_OK`. -/
def SQLITE_OK : Int := 0

/-- The result code `SQLITE_RANGE` (parameter index out of range). -/
def SQLITE_RANGE : Int := 25

/-- A column or parameter value of the storage engine: SQL `NULL` or `TEXT`. -/
inductive SqlValue where
  | null : SqlValue
  | text (bytes : List Byte) : SqlValue
deriving DecidableEq

/-- A prepared statement of the reference storage engine: its parameter
slots (index 1 is the first) and the columns of its current result row (index 0
is the first). -/
structure Statement where
  /-- The bound parameters. -/
  params : List SqlValue
  /-- The current result row. -/
  row : List SqlValue
deriving DecidableEq

/-- Modelled from the spec: the host string binder
`statement_binder<std::string>::bind` (of `sqlite_orm.h`, not part of the
source file), which binds the string as `TEXT` at the index and returns the
engine's status code. As the source comment spells it out:
`sqlite3_bind_text(stmt, index, value.c_str(), -1, SQLITE_TRANSIENT)`, so the
text up to the terminator is stored in slot `index`; an index outside the slots
is refused with `SQLITE_RANGE`. -/
def statement_binder_string.bind (stmt : Statement) (index : Int) (value : StdString) :
    Int × Statement :=
  if 1 ≤ index ∧ index ≤ stmt.params.length then
    (SQLITE_OK,
      ⟨stmt.params.set (index - 1).toNat (SqlValue.text (upToTerminator (c_str value))),
        stmt.row⟩)
  else (SQLITE_RANGE, stmt)

/-- Modelled from the spec: the storage engine's column access
`sqlite3_column_text` (not part of the source file): a pointer to the
terminated text of a `TEXT` column, the null pointer for SQL `NULL` or a column
that does not exist. -/
def sqlite3_column_text (stmt : Statement) (iCol : Int) : CText :=
  if 0 ≤ iCol then
    match stmt.row.get? iCol.toNat with
    | some (SqlValue.text bytes) => some (c_str bytes)
    | _ => none
  else none

/-- A host string binder that only records the index and the bytes it is
handed, in call order, and reports success. -/
def recordingBinder (log : List (Int × StdString)) (index : Int) (value : StdString) :
    Int × List (Int × StdString) :=
  (SQLITE_OK, log ++ [(index, value)])

/-! ## The adapter (`src/qt-sqlite-orm.h`) -/

/-- `struct type_printer<QString> : public text_printer {}` (source lines 18-19). -/
def type_printer_QString : Printer := text_printer

/-- `statement_binder<QString>::bind` (source lines 34-36):
`return statement_binder<std::string>().bind(stmt, index, value.toStdString())`.
The host string binder is the parameter `string_bind`; it returns the status
code and the updated statement. -/
def statement_binder_QString.bind {σ : Type} (string_bind : σ → Int → StdString → Int × σ)
    (stmt : σ) (index : Int) (value : QString) : Int × σ :=
  string_bind stmt index (toStdString value)

/-- `field_printer<QString>::operator()` (source line 49): `return t.toStdString()`. -/
def field_printer_QString.call (t : QString) : StdString := toStdString t

/-- `row_extractor<QString>::extract(const char*)` (source lines 63-65):
`return QString::fromStdString(row_value)`, through the implicit
`std::string(const char*)` conversion. -/
def row_extractor_QString.extract (row_value : CText) : Option QString :=
  (stringFromCText row_value).map fromStdString

/-- `row_extractor<QString>::extract(sqlite3_stmt*, int)` (source lines 67-70):
reads the column text and calls `extract(const char*)` on it. The host column
access is the parameter `column_text`. -/
def row_extractor_QString.extractColumn {σ : Type} (column_text : σ → Int → CText)
    (stmt : σ) (columnIndex : Int) : Option QString :=
  let str := column_text stmt columnIndex
  row_extractor_QString.extract str

/-- One store-and-load of a value: the printed (equally, bound) bytes as
terminated C text, read back by `extract(const char*)`. -/
def roundTrip (v : QString) : Option QString :=
  row_extractor_QString.extract (some (c_str (field_printer_QString.call v)))

/-! ## The codec and the adapter on sample values -/

theorem toStdString_samples :
    toStdString [0x68, 0x69] = [0x68, 0x69] ∧
      toStdString [0xE9, 0x20AC, 0xD83D, 0xDE00]
        = [0xC3, 0xA9, 0xE2, 0x82, 0xAC, 0xF0, 0x9F, 0x98, 0x80] ∧
      toStdString [0xD800, 0x41, 0xDC00] = [0x3F, 0x41, 0x3F] ∧
      toStdString [0xFEFF, 0x41] = [0xEF, 0xBB, 0xBF, 0x41] := by
  decide

theorem fromStdString_samples :
    fromStdString [0xC3, 0xA9, 0xE2, 0x82, 0xAC, 0xF0, 0x9F, 0x98, 0x80]
        = [0xE9, 0x20AC, 0xD83D, 0xDE00] ∧
      fromStdString [0xEF, 0xBB, 0xBF, 0x41] = [0x41] ∧
      fromStdString [0x41, 0xEF, 0xBB, 0xBF] = [0x41, 0xFEFF] ∧
      fromStdString [0xC0, 0x80, 0xFF] = [0xFFFD, 0xFFFD, 0xFFFD] ∧
      fromStdString [0xE2, 0x82] = [0xFFFD, 0xFFFD] := by
  decide

theorem roundTrip_samples :
    roundTrip [0x68, 0x69] = some [0x68, 0x69] ∧
      roundTrip [0xFEFF, 0x41] = some [0x41] ∧
      roundTrip [0xD800, 0] = some [0x3F] ∧
      roundTrip [0x41, 0, 0x42] = some [0x41] := by
  decide

theorem reference_engine_samples :
    statement_binder_QString.bind statement_binder_string.bind
        ⟨[SqlValue.null], []⟩ 1 [0x68, 0x69]
        = (SQLITE_OK, ⟨[SqlValue.text [0x68, 0x69]], []⟩) ∧
      statement_binder_QString.bind statement_binder_string.bind
        ⟨[SqlValue.null], []⟩ 2 [0x68, 0x69] = (SQLITE_RANGE, ⟨[SqlValue.null], []⟩) ∧
      row_extractor_QString.extractColumn sqlite3_column_text
        ⟨[], [SqlValue.text [0x34, 0x32]]⟩ 0 = some [0x34, 0x32] ∧
      row_extractor_QString.extractColumn sqlite3_column_text
        ⟨[], [SqlValue.null]⟩ 0 = none := by
  decide

/-! ## Bytes and code units -/

theorem byte_val (n : Nat) (h : n < 256) : (byte n).val = n := by
  simp [byte, Fin.ofNat]; omega

theorem unit16_val (n : Nat) (h : n < 65536) : (unit16 n).val = n := by
  simp [unit16, Fin.ofNat]; omega

theorem unit16_eq (u : QChar) (n : Nat) (h : n = u.val) : unit16 n = u := by
  apply Fin.ext
  rw [unit16_val n (by omega)]; exact h

theorem decodeLoop_some (b : Byte) (src : List Byte) (units : List QChar) (n : Nat)
    (h : fromUtf8Char b src = some (units, n)) :
    decodeLoop 0 (b :: src) = units ++ decodeLoop (n - 1) src := by
  rw [decodeLoop, h]

theorem decodeLoop_none (b : Byte) (src : List Byte) (h : fromUtf8Char b src = none) :
    decodeLoop 0 (b :: src) = ReplacementCharacter :: decodeLoop 0 src := by
  rw [decodeLoop, h]

theorem decodeLoop_skip (k : Nat) (b : Byte) (src : List Byte) :
    decodeLoop (k + 1) (b :: src) = decodeLoop k src := by
  rw [decodeLoop]

theorem fromUtf8Char_one (u : QChar) (rest : List Byte) (h : u.val < 0x80) :
    fromUtf8Char (byte u.val) rest = some ([u], 1) := by
  have hb : (byte u.val).val = u.val := byte_val _ (by omega)
  simp only [fromUtf8Char, hb, if_pos h, unit16_eq u u.val rfl]

theorem fromUtf8Char_two (u : QChar) (rest : List Byte) (h1 : 0x80 ≤ u.val)
    (h2 : u.val < 0x800) :
    fromUtf8Char (byte (0xC0 + u.val / 64)) (byte (0x80 + u.val % 64) :: rest)
      = some ([u], 2) := by
  have hb0 : (byte (0xC0 + u.val / 64)).val = 0xC0 + u.val / 64 := byte_val _ (by omega)
  have hb1 : (byte (0x80 + u.val % 64)).val = 0x80 + u.val % 64 := byte_val _ (by omega)
  have hu : unit16 ((0xC0 + u.val / 64) % 32 * 64 + (0x80 + u.val % 64) % 64) = u :=
    unit16_eq u _ (by omega)
  simp only [fromUtf8Char, hb0, hb1, isContinuationByte, appendDecoded, isSurrogate, hu,
    decide_eq_true_eq, Bool.or_eq_true, Bool.and_eq_true]
  rw [if_neg (by omega), if_neg (by omega), if_pos (by omega), if_pos (by omega),
    if_neg (by omega), if_neg (by omega), if_pos (by omega)]

theorem fromUtf8Char_three (u : QChar) (rest : List Byte) (h1 : 0x800 ≤ u.val)
    (h2 : isSurrogate u.val = false) :
    fromUtf8Char (byte (0xE0 + u.val / 4096))
        (byte (0x80 + u.val / 64 % 64) :: byte (0x80 + u.val % 64) :: rest)
      = some ([u], 3) := by
  have hlt : u.val < 65536 := u.isLt
  have hs : ¬ (0xD800 ≤ u.val ∧ u.val < 0xE000) := by
    simpa [isSurrogate] using h2
  have hb0 : (byte (0xE0 + u.val / 4096)).val = 0xE0 + u.val / 4096 := byte_val _ (by omega)
  have hb1 : (byte (0x80 + u.val / 64 % 64)).val = 0x80 + u.val / 64 % 64 :=
    byte_val _ (by omega)
  have hb2 : (byte (0x80 + u.val % 64)).val = 0x80 + u.val % 64 := byte_val _ (by omega)
  have hu : unit16 (((0xE0 + u.val / 4096) % 16 * 64 + (0x80 + u.val / 64 % 64) % 64) * 64
      + (0x80 + u.val % 64) % 64) = u := unit16_eq u _ (by omega)
  simp only [fromUtf8Char, hb0, hb1, hb2, isContinuationByte, appendDecoded, isSurrogate, hu,
    decide_eq_true_eq, Bool.or_eq_true, Bool.and_eq_true]
  rw [if_neg (by omega), if_neg (by omega), if_neg (by omega), if_pos (by omega),
    if_pos (by omega), if_neg (by omega), if_neg (by omega), if_pos (by omega)]

theorem fromUtf8Char_four (u low : QChar) (rest : List Byte)
    (h1 : isHighSurrogate u.val = true) (h2 : isLowSurrogate low.val = true) :
    fromUtf8Char (byte (0xF0 + surrogateToUcs4 u.val low.val / 262144 % 16))
        (byte (0x80 + surrogateToUcs4 u.val low.val / 4096 % 64)
          :: byte (0x80 + surrogateToUcs4 u.val low.val / 64 % 64)
          :: byte (0x80 + surrogateToUcs4 u.val low.val % 64) :: rest)
      = some ([u, low], 4) := by
  have hu : 0xD800 ≤ u.val ∧ u.val < 0xDC00 := by simpa [isHighSurrogate] using h1
  have hl : 0xDC00 ≤ low.val ∧ low.val < 0xE000 := by simpa [isLowSurrogate] using h2
  obtain ⟨c, hc⟩ : ∃ c, c = surrogateToUcs4 u.val low.val := ⟨_, rfl⟩
  have hcv : c = u.val * 1024 + low.val - 0x35FDC00 := by rw [hc, surrogateToUcs4]
  rw [← hc]
  have hb0 : (byte (0xF0 + c / 262144 % 16)).val = 0xF0 + c / 262144 % 16 :=
    byte_val _ (by omega)
  have hb1 : (byte (0x80 + c / 4096 % 64)).val = 0x80 + c / 4096 % 64 := byte_val _ (by omega)
  have hb2 : (byte (0x80 + c / 64 % 64)).val = 0x80 + c / 64 % 64 := byte_val _ (by omega)
  have hb3 : (byte (0x80 + c % 64)).val = 0x80 + c % 64 := byte_val _ (by omega)
  have hdec : (((0xF0 + c / 262144 % 16) % 8 * 64 + (0x80 + c / 4096 % 64) % 64) * 64
      + (0x80 + c / 64 % 64) % 64) * 64 + (0x80 + c % 64) % 64 = c := by omega
  have hhi : unit16 (highSurrogate c) = u := unit16_eq u _ (by rw [highSurrogate]; omega)
  have hlo : unit16 (lowSurrogate c) = low := unit16_eq low _ (by rw [lowSurrogate]; omega)
  simp only [fromUtf8Char, hb0, hb1, hb2, hb3, isContinuationByte, appendDecoded, isSurrogate,
    hdec, hhi, hlo, decide_eq_true_eq, Bool.or_eq_true, Bool.and_eq_true]
  rw [if_neg (by omega), if_neg (by omega), if_neg (by omega), if_neg (by omega),
    if_pos (by omega), if_pos (by omega), if_neg (by omega), if_neg (by omega),
    if_neg (by omega)]

/-! ## The encoder and the decoder, one character at a time -/

theorem isSurrogate_false_iff (u : Nat) :
    isSurrogate u = false ↔ ¬ (0xD800 ≤ u ∧ u < 0xE000) := by
  simp [isSurrogate]

theorem isSurrogate_true_iff (u : Nat) : isSurrogate u = true ↔ (0xD800 ≤ u ∧ u < 0xE000) := by
  simp [isSurrogate]

theorem isHighSurrogate_true_iff (u : Nat) :
    isHighSurrogate u = true ↔ (0xD800 ≤ u ∧ u < 0xDC00) := by
  simp [isHighSurrogate]

theorem isLowSurrogate_true_iff (u : Nat) :
    isLowSurrogate u = true ↔ (0xDC00 ≤ u ∧ u < 0xE000) := by
  simp [isLowSurrogate]

theorem convertFromUnicode_one (u : QChar) (rest : List QChar) (h : u.val < 0x80) :
    convertFromUnicode (u :: rest) = byte u.val :: convertFromUnicode rest := by
  cases rest <;> simp [convertFromUnicode, h]

theorem convertFromUnicode_two (u : QChar) (rest : List QChar) (h1 : 0x80 ≤ u.val)
    (h2 : u.val < 0x800) :
    convertFromUnicode (u :: rest)
      = byte (0xC0 + u.val / 64) :: byte (0x80 + u.val % 64) :: convertFromUnicode rest := by
  have h0 : ¬ u.val < 0x80 := by omega
  cases rest <;> simp [convertFromUnicode, h0, h2]

theorem convertFromUnicode_three (u : QChar) (rest : List QChar) (h1 : 0x800 ≤ u.val)
    (h2 : isSurrogate u.val = false) :
    convertFromUnicode (u :: rest)
      = byte (0xE0 + u.val / 4096) :: byte (0x80 + u.val / 64 % 64) :: byte (0x80 + u.val % 64)
          :: convertFromUnicode rest := by
  have h0 : ¬ u.val < 0x80 := by omega
  have h0b : ¬ u.val < 0x800 := by omega
  cases rest <;> simp [convertFromUnicode, h0, h0b, h2]

theorem convertFromUnicode_pair (u low : QChar) (src : List QChar)
    (h1 : isHighSurrogate u.val = true) (h2 : isLowSurrogate low.val = true) :
    convertFromUnicode (u :: low :: src)
      = byte (0xF0 + surrogateToUcs4 u.val low.val / 262144 % 16)
          :: byte (0x80 + surrogateToUcs4 u.val low.val / 4096 % 64)
          :: byte (0x80 + surrogateToUcs4 u.val low.val / 64 % 64)
          :: byte (0x80 + surrogateToUcs4 u.val low.val % 64) :: convertFromUnicode src := by
  have hu := (isHighSurrogate_true_iff _).1 h1
  have h0 : ¬ u.val < 0x80 := by omega
  have h0b : ¬ u.val < 0x800 := by omega
  have hs : isSurrogate u.val = true := (isSurrogate_true_iff _).2 (by omega)
  simp [convertFromUnicode, h0, h0b, hs, h1, h2]

theorem convertFromUnicode_lone (u : QChar) (rest : List QChar)
    (hs : isSurrogate u.val = true)
    (hn : ∀ low src, rest = low :: src →
      (isHighSurrogate u.val && isLowSurrogate low.val) = false) :
    convertFromUnicode (u :: rest) = questionMark :: convertFromUnicode rest := by
  have hu := (isSurrogate_true_iff _).1 hs
  have h0 : ¬ u.val < 0x80 := by omega
  have h0b : ¬ u.val < 0x800 := by omega
  cases rest with
  | nil => simp [convertFromUnicode, h0, h0b, hs]
  | cons low src =>
    have := hn low src rfl
    simp [convertFromUnicode, h0, h0b, hs, this]

theorem replaceLoneSurrogates_keep (u : QChar) (rest : List QChar)
    (h : isSurrogate u.val = false) :
    replaceLoneSurrogates (u :: rest) = u :: replaceLoneSurrogates rest := by
  cases rest <;> simp [replaceLoneSurrogates, h]

theorem replaceLoneSurrogates_pair (u low : QChar) (src : List QChar)
    (h1 : isHighSurrogate u.val = true) (h2 : isLowSurrogate low.val = true) :
    replaceLoneSurrogates (u :: low :: src) = u :: low :: replaceLoneSurrogates src := by
  have hu := (isHighSurrogate_true_iff _).1 h1
  have hs : isSurrogate u.val = true := (isSurrogate_true_iff _).2 (by omega)
  simp [replaceLoneSurrogates, hs, h1, h2]

theorem replaceLoneSurrogates_lone (u : QChar) (rest : List QChar)
    (hs : isSurrogate u.val = true)
    (hn : ∀ low src, rest = low :: src →
      (isHighSurrogate u.val && isLowSurrogate low.val) = false) :
    replaceLoneSurrogates (u :: rest) = 0x3F :: replaceLoneSurrogates rest := by
  cases rest with
  | nil => simp [replaceLoneSurrogates, hs]
  | cons low src =>
    have := hn low src rfl
    simp [replaceLoneSurrogates, hs, this]

theorem decodeLoop_one (u : QChar) (rest : List Byte) (h : u.val < 0x80) :
    decodeLoop 0 (byte u.val :: rest) = u :: decodeLoop 0 rest := by
  rw [decodeLoop_some _ _ _ _ (fromUtf8Char_one u rest h)]; rfl

theorem decodeLoop_two (u : QChar) (rest : List Byte) (h1 : 0x80 ≤ u.val)
    (h2 : u.val < 0x800) :
    decodeLoop 0 (byte (0xC0 + u.val / 64) :: byte (0x80 + u.val % 64) :: rest)
      = u :: decodeLoop 0 rest := by
  rw [decodeLoop_some _ _ _ _ (fromUtf8Char_two u rest h1 h2)]; rfl

theorem decodeLoop_three (u : QChar) (rest : List Byte) (h1 : 0x800 ≤ u.val)
    (h2 : isSurrogate u.val = false) :
    decodeLoop 0 (byte (0xE0 + u.val / 4096) :: byte (0x80 + u.val / 64 % 64)
        :: byte (0x80 + u.val % 64) :: rest)
      = u :: decodeLoop 0 rest := by
  rw [decodeLoop_some _ _ _ _ (fromUtf8Char_three u rest h1 h2)]; rfl

theorem decodeLoop_four (u low : QChar) (rest : List Byte)
    (h1 : isHighSurrogate u.val = true) (h2 : isLowSurrogate low.val = true) :
    decodeLoop 0 (byte (0xF0 + surrogateToUcs4 u.val low.val / 262144 % 16)
        :: byte (0x80 + surrogateToUcs4 u.val low.val / 4096 % 64)
        :: byte (0x80 + surrogateToUcs4 u.val low.val / 64 % 64)
        :: byte (0x80 + surrogateToUcs4 u.val low.val % 64) :: rest)
      = u :: low :: decodeLoop 0 rest := by
  rw [decodeLoop_some _ _ _ _ (fromUtf8Char_four u low rest h1 h2)]; rfl

theorem decodeLoop_questionMark (rest : List Byte) :
    decodeLoop 0 (questionMark :: rest) = 0x3F :: decodeLoop 0 rest :=
  decodeLoop_one 0x3F rest (by decide)

/-- Decoding the encoder's output gives back the string with its lone
surrogates replaced by `'?'`. -/
theorem decodeLoop_convertFromUnicode (v : QString) :
    decodeLoop 0 (convertFromUnicode v) = replaceLoneSurrogates v := by
  suffices H : ∀ n (v : QString), v.length ≤ n →
      decodeLoop 0 (convertFromUnicode v) = replaceLoneSurrogates v from H _ v le_rfl
  intro n
  induction n with
  | zero =>
    intro v hv
    have : v = [] := List.length_eq_zero.1 (by omega)
    subst this; rfl
  | succ n ih =>
    intro v hv
    match v, hv with
    | [], _ => rfl
    | u :: rest, hv =>
      have hr : rest.length ≤ n := by simp at hv; omega
      by_cases hs : isSurrogate u.val = true
      · by_cases hp : ∃ low src, rest = low :: src ∧
            (isHighSurrogate u.val && isLowSurrogate low.val) = true
        · obtain ⟨low, src, rfl, hpair⟩ := hp
          simp only [Bool.and_eq_true] at hpair
          have hsrc : src.length ≤ n := by simp at hr; omega
          rw [convertFromUnicode_pair u low src hpair.1 hpair.2,
            decodeLoop_four u low _ hpair.1 hpair.2,
            replaceLoneSurrogates_pair u low src hpair.1 hpair.2, ih src hsrc]
        · have hn : ∀ low src, rest = low :: src →
              (isHighSurrogate u.val && isLowSurrogate low.val) = false := by
            intro low src h
            by_contra hc
            exact hp ⟨low, src, h, by simpa using hc⟩
          rw [convertFromUnicode_lone u rest hs hn, decodeLoop_questionMark,
            replaceLoneSurrogates_lone u rest hs hn, ih rest hr]
      · have hs : isSurrogate u.val = false := by simpa using hs
        have hsv := (isSurrogate_false_iff _).1 hs
        rw [replaceLoneSurrogates_keep u rest hs]
        by_cases h1 : u.val < 0x80
        · rw [convertFromUnicode_one u rest h1, decodeLoop_one u _ h1, ih rest hr]
        · by_cases h2 : u.val < 0x800
          · rw [convertFromUnicode_two u rest (by omega) h2, decodeLoop_two u _ (by omega) h2,
              ih rest hr]
          · rw [convertFromUnicode_three u rest (by omega) hs,
              decodeLoop_three u _ (by omega) hs, ih rest hr]

/-- Induction along the way the codec reads a `QString`: a unit outside the
surrogate range, a surrogate pair, or a surrogate outside any pair. -/
theorem utf16_induction {P : QString → Prop} (nil : P [])
    (keep : ∀ u rest, isSurrogate u.val = false → P rest → P (u :: rest))
    (pair : ∀ u low src, isHighSurrogate u.val = true → isLowSurrogate low.val = true →
      P src → P (u :: low :: src))
    (lone : ∀ u rest, isSurrogate u.val = true →
      (∀ low src, rest = low :: src →
        (isHighSurrogate u.val && isLowSurrogate low.val) = false) →
      P rest → P (u :: rest)) :
    ∀ v, P v := by
  suffices H : ∀ n (v : QString), v.length ≤ n → P v from fun v => H _ v le_rfl
  intro n
  induction n with
  | zero =>
    intro v hv
    have : v = [] := List.length_eq_zero.1 (by omega)
    subst this; exact nil
  | succ n ih =>
    intro v hv
    match v, hv with
    | [], _ => exact nil
    | u :: rest, hv =>
      have hr : rest.length ≤ n := by simp at hv; omega
      by_cases hs : isSurrogate u.val = true
      · by_cases hp : ∃ low src, rest = low :: src ∧
            (isHighSurrogate u.val && isLowSurrogate low.val) = true
        · obtain ⟨low, src, rfl, hpair⟩ := hp
          simp only [Bool.and_eq_true] at hpair
          have hsrc : src.length ≤ n := by simp at hr; omega
          exact pair u low src hpair.1 hpair.2 (ih src hsrc)
        · have hn : ∀ low src, rest = low :: src →
              (isHighSurrogate u.val && isLowSurrogate low.val) = false := by
            intro low src h
            by_contra hc
            exact hp ⟨low, src, h, by simpa using hc⟩
          exact lone u rest hs hn (ih rest hr)
      · exact keep u rest (by simpa using hs) (ih rest hr)

/-! ## Valid UTF-16 survives the codec unchanged -/

theorem isValidUtf16_keep (u : QChar) (rest : List QChar) (h : isSurrogate u.val = false) :
    isValidUtf16 (u :: rest) = isValidUtf16 rest := by
  cases rest <;> simp [isValidUtf16, h]

theorem isValidUtf16_pair (u low : QChar) (src : List QChar)
    (h1 : isHighSurrogate u.val = true) (h2 : isLowSurrogate low.val = true) :
    isValidUtf16 (u :: low :: src) = isValidUtf16 src := by
  have hu := (isHighSurrogate_true_iff _).1 h1
  have hs : isSurrogate u.val = true := (isSurrogate_true_iff _).2 (by omega)
  simp [isValidUtf16, hs, h1, h2]

theorem isValidUtf16_lone (u : QChar) (rest : List QChar) (hs : isSurrogate u.val = true)
    (hn : ∀ low src, rest = low :: src →
      (isHighSurrogate u.val && isLowSurrogate low.val) = false) :
    isValidUtf16 (u :: rest) = false := by
  cases rest with
  | nil => simp [isValidUtf16, hs]
  | cons low src =>
    have := hn low src rfl
    simp only [Bool.and_eq_false_iff] at this
    simp only [isValidUtf16, hs, Bool.not_true, Bool.false_eq_true, if_false]
    rcases this with h | h <;> simp [h]

theorem replaceLoneSurrogates_of_valid (v : QString) :
    isValidUtf16 v = true → replaceLoneSurrogates v = v := by
  induction v using utf16_induction with
  | nil => intro _; rfl
  | keep u rest hs ih =>
    intro hv
    rw [isValidUtf16_keep u rest hs] at hv
    rw [replaceLoneSurrogates_keep u rest hs, ih hv]
  | pair u low src h1 h2 ih =>
    intro hv
    rw [isValidUtf16_pair u low src h1 h2] at hv
    rw [replaceLoneSurrogates_pair u low src h1 h2, ih hv]
  | lone u rest hs hn ih =>
    intro hv
    rw [isValidUtf16_lone u rest hs hn] at hv
    exact absurd hv (by simp)

theorem isSurrogate_questionMark : isSurrogate (0x3F : QChar).val = false := by decide

theorem isValidUtf16_replaceLoneSurrogates (v : QString) :
    isValidUtf16 (replaceLoneSurrogates v) = true := by
  induction v using utf16_induction with
  | nil => rfl
  | keep u rest hs ih =>
    rw [replaceLoneSurrogates_keep u rest hs, isValidUtf16_keep u _ hs, ih]
  | pair u low src h1 h2 ih =>
    rw [replaceLoneSurrogates_pair u low src h1 h2, isValidUtf16_pair u low _ h1 h2, ih]
  | lone u rest hs hn ih =>
    rw [replaceLoneSurrogates_lone u rest hs hn,
      isValidUtf16_keep _ _ isSurrogate_questionMark, ih]

theorem zero_mem_of_replaceLoneSurrogates (v : QString) :
    (0 : QChar) ∈ replaceLoneSurrogates v → (0 : QChar) ∈ v := by
  induction v using utf16_induction with
  | nil => intro h; exact h
  | keep u rest hs ih =>
    rw [replaceLoneSurrogates_keep u rest hs]
    intro h
    rcases List.mem_cons.1 h with h | h
    · exact List.mem_cons.2 (Or.inl h)
    · exact List.mem_cons.2 (Or.inr (ih h))
  | pair u low src h1 h2 ih =>
    rw [replaceLoneSurrogates_pair u low src h1 h2]
    intro h
    rcases List.mem_cons.1 h with h | h
    · exact List.mem_cons.2 (Or.inl h)
    · rcases List.mem_cons.1 h with h | h
      · exact List.mem_cons.2 (Or.inr (List.mem_cons.2 (Or.inl h)))
      · exact List.mem_cons.2 (Or.inr (List.mem_cons.2 (Or.inr (ih h))))
  | lone u rest hs hn ih =>
    rw [replaceLoneSurrogates_lone u rest hs hn]
    intro h
    rcases List.mem_cons.1 h with h | h
    · exact absurd h (by decide)
    · exact List.mem_cons.2 (Or.inr (ih h))

theorem head_replaceLoneSurrogates (v : QString) :
    (replaceLoneSurrogates v).head? = some 0xFEFF → v.head? = some 0xFEFF := by
  induction v using utf16_induction with
  | nil => intro h; exact h
  | keep u rest hs _ => rw [replaceLoneSurrogates_keep u rest hs]; intro h; exact h
  | pair u low src h1 h2 _ =>
    rw [replaceLoneSurrogates_pair u low src h1 h2]; intro h; exact h
  | lone u rest hs hn _ =>
    rw [replaceLoneSurrogates_lone u rest hs hn]
    intro h
    simp at h

/-! ## C text: the terminator cuts the encoded string at its first U+0000 -/

theorem upToTerminator_zero (rest : List Byte) : upToTerminator ((0 : Byte) :: rest) = [] := by
  simp [upToTerminator]

theorem upToTerminator_cons (b : Byte) (rest : List Byte) (h : b.val ≠ 0) :
    upToTerminator (b :: rest) = b :: upToTerminator rest := by
  have hb : b ≠ 0 := fun hc => h (by rw [hc]; rfl)
  simp [upToTerminator, List.takeWhile_cons, hb]

theorem upToTerminator_append (s junk : List Byte) (h : (0 : Byte) ∉ s) :
    upToTerminator (s ++ 0 :: junk) = s := by
  induction s with
  | nil => exact upToTerminator_zero junk
  | cons b s ih =>
    have hb : b.val ≠ 0 := by
      intro hc
      exact h (List.mem_cons.2 (Or.inl (Fin.ext hc).symm))
    have hs : (0 : Byte) ∉ s := fun hc => h (List.mem_cons.2 (Or.inr hc))
    rw [List.cons_append, upToTerminator_cons b _ hb, ih hs]

theorem takeWhile_head (p : QChar → Bool) (rest : List QChar) (a : QChar) (t : List QChar)
    (h : rest.takeWhile p = a :: t) : ∃ t', rest = a :: t' := by
  cases rest with
  | nil => simp at h
  | cons b r =>
    rw [List.takeWhile_cons] at h
    split at h
    · simp only [List.cons.injEq] at h
      exact ⟨r, by rw [h.1]⟩
    · simp at h

theorem takeWhile_cons_ne (u : QChar) (rest : List QChar) (h : u.val ≠ 0) :
    (u :: rest).takeWhile (fun c => c != 0) = u :: rest.takeWhile (fun c => c != 0) := by
  have hu : u ≠ 0 := fun hc => h (by rw [hc]; rfl)
  simp [List.takeWhile_cons, hu]

/-- The bytes before the terminator of the encoded string are the encoding of
the code units before the first U+0000. -/
theorem upToTerminator_convertFromUnicode (v : QString) :
    upToTerminator (c_str (convertFromUnicode v))
      = convertFromUnicode (v.takeWhile (fun c => c != 0)) := by
  unfold c_str
  induction v using utf16_induction with
  | nil => decide
  | keep u rest hs ih =>
    have hsv := (isSurrogate_false_iff _).1 hs
    by_cases h0 : u.val = 0
    · have hu : u = 0 := Fin.ext h0
      subst hu
      rw [convertFromUnicode_one 0 rest (by decide)]
      simp [upToTerminator, byte]
      rfl
    · rw [takeWhile_cons_ne u rest h0]
      by_cases h1 : u.val < 0x80
      · rw [convertFromUnicode_one u rest h1, convertFromUnicode_one u _ h1, List.cons_append,
          upToTerminator_cons _ _ (by rw [byte_val _ (by omega)]; exact h0), ih]
      · by_cases h2 : u.val < 0x800
        · rw [convertFromUnicode_two u rest (by omega) h2,
            convertFromUnicode_two u _ (by omega) h2, List.cons_append, List.cons_append,
            upToTerminator_cons _ _ (by rw [byte_val _ (by omega)]; omega),
            upToTerminator_cons _ _ (by rw [byte_val _ (by omega)]; omega), ih]
        · have hlt : u.val < 65536 := u.isLt
          rw [convertFromUnicode_three u rest (by omega) hs,
            convertFromUnicode_three u _ (by omega) hs, List.cons_append, List.cons_append,
            List.cons_append,
            upToTerminator_cons _ _ (by rw [byte_val _ (by omega)]; omega),
            upToTerminator_cons _ _ (by rw [byte_val _ (by omega)]; omega),
            upToTerminator_cons _ _ (by rw [byte_val _ (by omega)]; omega), ih]
  | pair u low src h1 h2 ih =>
    have hu := (isHighSurrogate_true_iff _).1 h1
    have hl := (isLowSurrogate_true_iff _).1 h2
    rw [takeWhile_cons_ne u _ (by omega), takeWhile_cons_ne low _ (by omega),
      convertFromUnicode_pair u low src h1 h2, convertFromUnicode_pair u low _ h1 h2]
    obtain ⟨c, hc⟩ : ∃ c, c = surrogateToUcs4 u.val low.val := ⟨_, rfl⟩
    have hcv : c = u.val * 1024 + low.val - 0x35FDC00 := by rw [hc, surrogateToUcs4]
    rw [← hc, List.cons_append, List.cons_append, List.cons_append, List.cons_append,
      upToTerminator_cons _ _ (by rw [byte_val _ (by omega)]; omega),
      upToTerminator_cons _ _ (by rw [byte_val _ (by omega)]; omega),
      upToTerminator_cons _ _ (by rw [byte_val _ (by omega)]; omega),
      upToTerminator_cons _ _ (by rw [byte_val _ (by omega)]; omega), ih]
  | lone u rest hs hn ih =>
    have hu := (isSurrogate_true_iff _).1 hs
    have hn' : ∀ low src, rest.takeWhile (fun c => c != 0) = low :: src →
        (isHighSurrogate u.val && isLowSurrogate low.val) = false := by
      intro low src h
      obtain ⟨t', ht'⟩ := takeWhile_head _ rest low src h
      exact hn low t' ht'
    rw [takeWhile_cons_ne u _ (by omega), convertFromUnicode_lone u rest hs hn,
      convertFromUnicode_lone u _ hs hn', List.cons_append,
      upToTerminator_cons _ _ (by decide), ih]

theorem zero_not_mem_takeWhile (v : QString) :
    (0 : QChar) ∉ v.takeWhile (fun c => c != 0) := by
  intro h
  have := List.mem_takeWhile_imp h
  simp at this

theorem takeWhile_of_zero_not_mem (v : QString) (h : (0 : QChar) ∉ v) :
    v.takeWhile (fun c => c != 0) = v := by
  rw [List.takeWhile_eq_self_iff]
  intro c hc
  have : c ≠ 0 := fun h0 => h (h0 ▸ hc)
  simpa using this

theorem zero_mem_c_str (s : StdString) : (0 : Byte) ∈ c_str s := by
  simp [c_str]

/-! ## The byte-order mark -/

theorem convertToUnicode_cons (b0 : Byte) (rest : List Byte)
    (h : ∀ b1 b2 src, rest = b1 :: b2 :: src →
      ¬ (b0.val = 0xEF ∧ b1.val = 0xBB ∧ b2.val = 0xBF)) :
    convertToUnicode (b0 :: rest) = decodeLoop 0 (b0 :: rest) := by
  match rest, h with
  | [], _ => rfl
  | [_], _ => rfl
  | b1 :: b2 :: src, h =>
    rw [convertToUnicode, if_neg (h b1 b2 src rfl)]

theorem convertToUnicode_head (b0 : Byte) (rest : List Byte) (h : b0.val ≠ 0xEF) :
    convertToUnicode (b0 :: rest) = decodeLoop 0 (b0 :: rest) :=
  convertToUnicode_cons b0 rest (fun _ _ _ _ hc => h hc.1)

/-- Decoding the encoder's output with `QString::fromUtf8`: a leading U+FEFF
is dropped as a byte-order mark, lone surrogates come back as `'?'`. -/
theorem convertToUnicode_convertFromUnicode (p : QString) :
    convertToUnicode (convertFromUnicode p)
      = if p.head? = some 0xFEFF then replaceLoneSurrogates p.tail
        else replaceLoneSurrogates p := by
  cases p with
  | nil => rfl
  | cons u rest =>
    by_cases hu : u = 0xFEFF
    · subst hu
      have hhead : (((0xFEFF : QChar) :: rest).head? = some 0xFEFF) := rfl
      rw [if_pos hhead, convertFromUnicode_three _ rest (by decide) (by decide),
        convertToUnicode, if_pos (by decide), decodeLoop_convertFromUnicode]
      rfl
    · have hne : ¬ ((u :: rest).head? = some 0xFEFF) := by
        intro hc
        simp only [List.head?_cons, Option.some.injEq] at hc
        exact hu hc
      have huv : u.val ≠ 0xFEFF := fun hc => hu (Fin.ext hc)
      have hlt : u.val < 65536 := u.isLt
      rw [if_neg hne, ← decodeLoop_convertFromUnicode]
      by_cases hs : isSurrogate u.val = true
      · have hsv := (isSurrogate_true_iff _).1 hs
        by_cases hp : ∃ low src, rest = low :: src ∧
            (isHighSurrogate u.val && isLowSurrogate low.val) = true
        · obtain ⟨low, src, rfl, hpair⟩ := hp
          simp only [Bool.and_eq_true] at hpair
          have hh := (isHighSurrogate_true_iff _).1 hpair.1
          have hl := (isLowSurrogate_true_iff _).1 hpair.2
          rw [convertFromUnicode_pair u low src hpair.1 hpair.2]
          obtain ⟨c, hc⟩ : ∃ c, c = surrogateToUcs4 u.val low.val := ⟨_, rfl⟩
          have hcv : c = u.val * 1024 + low.val - 0x35FDC00 := by rw [hc, surrogateToUcs4]
          rw [← hc]
          exact convertToUnicode_head _ _ (by rw [byte_val _ (by omega)]; omega)
        · have hn : ∀ low src, rest = low :: src →
              (isHighSurrogate u.val && isLowSurrogate low.val) = false := by
            intro low src h
            by_contra hc
            exact hp ⟨low, src, h, by simpa using hc⟩
          rw [convertFromUnicode_lone u rest hs hn]
          exact convertToUnicode_head _ _ (by decide)
      · have hs : isSurrogate u.val = false := by simpa using hs
        have hsv := (isSurrogate_false_iff _).1 hs
        by_cases h1 : u.val < 0x80
        · rw [convertFromUnicode_one u rest h1]
          exact convertToUnicode_head _ _ (by rw [byte_val _ (by omega)]; omega)
        · by_cases h2 : u.val < 0x800
          · rw [convertFromUnicode_two u rest (by omega) h2]
            exact convertToUnicode_head _ _ (by rw [byte_val _ (by omega)]; omega)
          · rw [convertFromUnicode_three u rest (by omega) hs]
            apply convertToUnicode_cons
            intro b1 b2 src hsrc
            simp only [List.cons.injEq] at hsrc
            rw [← hsrc.1, ← hsrc.2.1, byte_val _ (by omega), byte_val _ (by omega),
              byte_val _ (by omega)]
            omega

/-- One store-and-load, in closed form: the code units before the first
U+0000, without a leading U+FEFF, with lone surrogates replaced by `'?'`. -/
theorem roundTrip_eq (v : QString) :
    roundTrip v = some
      (if (v.takeWhile (fun c => c != 0)).head? = some 0xFEFF then
        replaceLoneSurrogates (v.takeWhile (fun c => c != 0)).tail
      else replaceLoneSurrogates (v.takeWhile (fun c => c != 0))) := by
  rw [roundTrip, row_extractor_QString.extract, stringFromCText,
    if_pos (zero_mem_c_str _), Option.map_some', field_printer_QString.call, toStdString,
    fromStdString, upToTerminator_convertFromUnicode, convertToUnicode_convertFromUnicode]

theorem roundTrip_of_valid (v : QString) (hvalid : isValidUtf16 v = true)
    (hzero : (0 : QChar) ∉ v) (hbom : v.head? ≠ some 0xFEFF) : roundTrip v = some v := by
  rw [roundTrip_eq, takeWhile_of_zero_not_mem v hzero, if_neg hbom,
    replaceLoneSurrogates_of_valid v hvalid]

theorem roundTrip_fixed (v : QString) (w : QString) (hw : roundTrip v = some w)
    (h2 : v.take 2 ≠ [0xFEFF, 0xFEFF]) : roundTrip w = some w := by
  rw [roundTrip_eq] at hw
  have hw' := Option.some.inj hw
  obtain ⟨t, ht⟩ := List.takeWhile_prefix (fun c : QChar => c != 0) (l := v)
  have hz := zero_not_mem_takeWhile v
  by_cases hb : (v.takeWhile (fun c => c != 0)).head? = some 0xFEFF
  · rw [if_pos hb] at hw'
    subst hw'
    apply roundTrip_of_valid _ (isValidUtf16_replaceLoneSurrogates _)
    · intro hc
      exact hz (List.mem_of_mem_tail (zero_mem_of_replaceLoneSurrogates _ hc))
    · intro hc
      have hc' := head_replaceLoneSurrogates _ hc
      apply h2
      match hp : v.takeWhile (fun c => c != 0), hb, hc' with
      | a :: b :: r, hb, hc' =>
        rw [hp] at ht
        simp only [List.head?_cons, Option.some.injEq, List.tail_cons] at hb hc'
        rw [← ht, hb, hc']
        rfl
  · rw [if_neg hb] at hw'
    subst hw'
    apply roundTrip_of_valid _ (isValidUtf16_replaceLoneSurrogates _)
    · intro hc
      exact hz (zero_mem_of_replaceLoneSurrogates _ hc)
    · intro hc
      exact hb (head_replaceLoneSurrogates _ hc)

theorem roundTrip_zero_not_mem (v w : QString) (hw : roundTrip v = some w) :
    (0 : QChar) ∉ w := by
  rw [roundTrip_eq] at hw
  have hw' := Option.some.inj hw
  have hz := zero_not_mem_takeWhile v
  by_cases hb : (v.takeWhile (fun c => c != 0)).head? = some 0xFEFF
  · rw [if_pos hb] at hw'
    subst hw'
    intro hc
    exact hz (List.mem_of_mem_tail (zero_mem_of_replaceLoneSurrogates _ hc))
  · rw [if_neg hb] at hw'
    subst hw'
    intro hc
    exact hz (zero_mem_of_replaceLoneSurrogates _ hc)

theorem takeWhile_takeWhile_ne_zero (v : QString) :
    (v.takeWhile (fun c => c != 0)).takeWhile (fun c => c != 0)
      = v.takeWhile (fun c => c != 0) :=
  takeWhile_of_zero_not_mem _ (zero_not_mem_takeWhile v)

theorem length_replaceLoneSurrogates (v : QString) :
    (replaceLoneSurrogates v).length = v.length := by
  induction v using utf16_induction with
  | nil => rfl
  | keep u rest hs ih => rw [replaceLoneSurrogates_keep u rest hs, List.length_cons, ih]; rfl
  | pair u low src h1 h2 ih =>
    rw [replaceLoneSurrogates_pair u low src h1 h2, List.length_cons, List.length_cons, ih]; rfl
  | lone u rest hs hn ih =>
    rw [replaceLoneSurrogates_lone u rest hs hn, List.length_cons, ih]; rfl

/-- The strings one store-and-load returns unchanged are exactly the valid
UTF-16 strings without U+0000 that do not begin with U+FEFF. -/
theorem roundTrip_eq_self_iff (v : QString) :
    roundTrip v = some v ↔
      (isValidUtf16 v = true ∧ (0 : QChar) ∉ v ∧ v.head? ≠ some 0xFEFF) := by
  constructor
  · intro h
    have hz : (0 : QChar) ∉ v := roundTrip_zero_not_mem v v h
    have h' := h
    rw [roundTrip_eq, takeWhile_of_zero_not_mem v hz] at h'
    have hv := Option.some.inj h'
    by_cases hb : v.head? = some 0xFEFF
    · rw [if_pos hb] at hv
      have hlen := congrArg List.length hv
      rw [length_replaceLoneSurrogates, List.length_tail] at hlen
      cases v with
      | nil => simp at hb
      | cons a t => simp at hlen
    · rw [if_neg hb] at hv
      refine ⟨?_, hz, hb⟩
      rw [← hv]
      exact isValidUtf16_replaceLoneSurrogates v
  · rintro ⟨h1, h2, h3⟩
    exact roundTrip_of_valid v h1 h2 h3

/-- A second store-and-load changes nothing exactly for the strings that do
not begin with two code units U+FEFF. -/
theorem roundTrip_idempotent_iff (v : QString) :
    (roundTrip v).bind roundTrip = roundTrip v ↔ v.take 2 ≠ [0xFEFF, 0xFEFF] := by
  constructor
  · intro h h2
    match v, h2 with
    | a :: b :: rest, h2 =>
      simp only [List.take_succ_cons, List.take_zero, List.cons.injEq, and_true] at h2
      obtain ⟨rfl, rfl⟩ := h2
      have hw := roundTrip_eq ((0xFEFF : QChar) :: 0xFEFF :: rest)
      have hhead : ∀ t : List QChar,
          (((0xFEFF : QChar) :: 0xFEFF :: t).head? = some 0xFEFF) := fun _ => rfl
      rw [takeWhile_cons_ne _ _ (by decide), takeWhile_cons_ne _ _ (by decide),
        if_pos (hhead _), List.tail_cons,
        replaceLoneSurrogates_keep _ _ (by decide)] at hw
      rw [hw, Option.some_bind] at h
      have := ((roundTrip_eq_self_iff _).1 h).2.2
      exact this rfl
  · intro h
    obtain ⟨w, hw⟩ : ∃ w, roundTrip v = some w := ⟨_, roundTrip_eq v⟩
    rw [hw, Option.some_bind, roundTrip_fixed v w hw h]

/-- C1 (as stated, refuted): the string `U+FEFF "A"` is valid UTF-16 and has
no U+0000, its byte form is `EF BB BF 41`, and extracting from that terminated
byte form yields "A", not the string itself. -/
theorem C1_leading_bom_lost :
    isValidUtf16 [0xFEFF, 0x41] = true ∧ (0 : QChar) ∉ ([0xFEFF, 0x41] : QString) ∧
      toStdString [0xFEFF, 0x41] = [0xEF, 0xBB, 0xBF, 0x41] ∧
      row_extractor_QString.extract (some (c_str (toStdString [0xFEFF, 0x41])))
        = some [0x41] ∧
      row_extractor_QString.extract (some (c_str (toStdString [0xFEFF, 0x41])))
        ≠ some [0xFEFF, 0x41] := by
  decide

/-- C1 (amended): for every QString that is valid UTF-16, contains no U+0000
and does not begin with U+FEFF, extracting from the terminated byte form that
the binder and the printer produce yields the string itself. -/
theorem C1_round_trip (v : QString) (hvalid : isValidUtf16 v = true)
    (hzero : (0 : QChar) ∉ v) (hbom : v.head? ≠ some 0xFEFF) :
    row_extractor_QString.extract (some (c_str (toStdString v))) = some v ∧
      row_extractor_QString.extract (some (c_str (field_printer_QString.call v))) = some v :=
  ⟨roundTrip_of_valid v hvalid hzero hbom, roundTrip_of_valid v hvalid hzero hbom⟩

/-- C1 at the string "hé€😀" (one-, two-, three- and four-byte characters). -/
theorem C1_round_trip_witness :
    row_extractor_QString.extract
        (some (c_str (toStdString [0x68, 0xE9, 0x20AC, 0xD83D, 0xDE00])))
        = some [0x68, 0xE9, 0x20AC, 0xD83D, 0xDE00] ∧
      row_extractor_QString.extract
        (some (c_str (field_printer_QString.call [0x68, 0xE9, 0x20AC, 0xD83D, 0xDE00])))
        = some [0x68, 0xE9, 0x20AC, 0xD83D, 0xDE00] :=
  C1_round_trip [0x68, 0xE9, 0x20AC, 0xD83D, 0xDE00] (by decide) (by decide) (by decide)

/-- C3: the binder returns what the host string binder returns for the same
statement, the same index and `value.toStdString()`: the same status code (and
the same statement effect), so it fails exactly when the host call fails. -/
theorem C3_status_unchanged (σ : Type) (string_bind : σ → Int → StdString → Int × σ)
    (stmt : σ) (index : Int) (value : QString) :
    statement_binder_QString.bind string_bind stmt index value
        = string_bind stmt index (toStdString value) ∧
      (statement_binder_QString.bind string_bind stmt index value).1
        = (string_bind stmt index (toStdString value)).1 ∧
      ((statement_binder_QString.bind string_bind stmt index value).1 ≠ SQLITE_OK ↔
        (string_bind stmt index (toStdString value)).1 ≠ SQLITE_OK) :=
  ⟨rfl, rfl, Iff.rfl⟩

/-- C4: binding the empty QString hands the empty string to the host binder;
the reference engine then stores an empty `TEXT` value, which is not `NULL`,
with status `SQLITE_OK`; extracting from empty text, as a C pointer or as a
column, yields the empty QString. -/
theorem C4_empty_string :
    (∀ (σ : Type) (string_bind : σ → Int → StdString → Int × σ) (stmt : σ) (index : Int),
        statement_binder_QString.bind string_bind stmt index []
          = string_bind stmt index []) ∧
      statement_binder_QString.bind statement_binder_string.bind ⟨[SqlValue.null], []⟩ 1 []
        = (SQLITE_OK, ⟨[SqlValue.text []], []⟩) ∧
      SqlValue.text [] ≠ SqlValue.null ∧
      row_extractor_QString.extract (some (c_str [])) = some [] ∧
      row_extractor_QString.extractColumn sqlite3_column_text ⟨[], [SqlValue.text []]⟩ 0
        = some [] ∧
      roundTrip [] = some [] :=
  ⟨fun _ _ _ _ => rfl, by decide, by decide, by decide, by decide, by decide⟩

/-- C5: when the column text is a non-null C string, extraction from the row
and column index is extraction from that C string; a column holding "42"
yields the QString constructed from "42". -/
theorem C5_column_form_delegates (σ : Type) (column_text : σ → Int → CText) (stmt : σ)
    (columnIndex : Int) (s : List Byte) (h : column_text stmt columnIndex = some s) :
    row_extractor_QString.extractColumn column_text stmt columnIndex
        = row_extractor_QString.extract (some s) ∧
      (s = c_str [0x34, 0x32] →
        row_extractor_QString.extractColumn column_text stmt columnIndex
          = some (fromStdString [0x34, 0x32])) := by
  have hd : row_extractor_QString.extractColumn column_text stmt columnIndex
      = row_extractor_QString.extract (some s) := by
    rw [row_extractor_QString.extractColumn, h]
  refine ⟨hd, fun hs => ?_⟩
  rw [hd, hs]
  decide

/-- C5 on the reference engine, at a row whose first column holds "42". -/
theorem C5_column_form_delegates_witness :
    row_extractor_QString.extractColumn sqlite3_column_text
          ⟨[], [SqlValue.text [0x34, 0x32]]⟩ 0
        = row_extractor_QString.extract (some [0x34, 0x32, 0]) ∧
      (([0x34, 0x32, 0] : List Byte) = c_str [0x34, 0x32] →
        row_extractor_QString.extractColumn sqlite3_column_text
          ⟨[], [SqlValue.text [0x34, 0x32]]⟩ 0 = some (fromStdString [0x34, 0x32])) :=
  C5_column_form_delegates Statement sqlite3_column_text ⟨[], [SqlValue.text [0x34, 0x32]]⟩ 0
    [0x34, 0x32, 0] (by decide)

/-- C6: for a pointer to bytes `s` without a zero byte, followed by the
terminator and anything after it, extraction yields the QString constructed
from `s` alone; a pointer to "hello" yields the QString "hello". -/
theorem C6_pointer_form (s junk : List Byte) (h : (0 : Byte) ∉ s) :
    row_extractor_QString.extract (some (s ++ 0 :: junk)) = some (fromStdString s) ∧
      row_extractor_QString.extract (some ([0x68, 0x65, 0x6C, 0x6C, 0x6F] ++ 0 :: junk))
        = some [0x68, 0x65, 0x6C, 0x6C, 0x6F] := by
  have key : ∀ t : List Byte, (0 : Byte) ∉ t →
      row_extractor_QString.extract (some (t ++ 0 :: junk)) = some (fromStdString t) := by
    intro t ht
    rw [row_extractor_QString.extract, stringFromCText, if_pos (by simp),
      upToTerminator_append t junk ht, Option.map_some']
  refine ⟨key s h, ?_⟩
  rw [key _ (by decide)]
  decide

/-- C6 at the text "hi" followed by its terminator and two further bytes. -/
theorem C6_pointer_form_witness :
    row_extractor_QString.extract (some ([0x68, 0x69] ++ 0 :: [0x21, 0x21]))
        = some (fromStdString [0x68, 0x69]) ∧
      row_extractor_QString.extract
          (some ([0x68, 0x65, 0x6C, 0x6C, 0x6F] ++ 0 :: [0x21, 0x21]))
        = some [0x68, 0x65, 0x6C, 0x6C, 0x6F] :=
  C6_pointer_form [0x68, 0x69] [0x21, 0x21] (by decide)

/-- C7: the type tag of QString is the host text printer: its affinity
string is "TEXT", and it is neither the integer nor the real printer. -/
theorem C7_type_tag_is_text :
    type_printer_QString = text_printer ∧ type_printer_QString.print = "TEXT" ∧
      type_printer_QString.print ≠ integer_printer.print ∧
      type_printer_QString.print ≠ real_printer.print := by
  decide

/-- C8: the bytes the binder hands to the host depend only on the value:
there is one byte string for `v` that every bind call of `v`, whatever the host
binder and the statement state, passes at the given index; a recording host
that sees two successive calls records the same index and bytes twice. -/
theorem C8_bind_deterministic (v : QString) (index : Int) :
    (∃ bytes : StdString,
        ∀ (σ : Type) (string_bind : σ → Int → StdString → Int × σ) (stmt : σ),
          statement_binder_QString.bind string_bind stmt index v
            = string_bind stmt index bytes) ∧
      (∀ log : List (Int × StdString),
        (statement_binder_QString.bind recordingBinder
            (statement_binder_QString.bind recordingBinder log index v).2 index v).2
          = log ++ [(index, toStdString v), (index, toStdString v)]) := by
  refine ⟨⟨toStdString v, fun _ _ _ => rfl⟩, fun log => ?_⟩
  simp [statement_binder_QString.bind, recordingBinder]

/-- C9 (as stated, refuted): the string `U+D800 U+0000` contains U+0000, the
part before it is the lone surrogate `U+D800`, and extraction from its byte
form yields "?" instead of that part. -/
theorem C9_lone_surrogate_before_terminator :
    (0 : QChar) ∈ ([0xD800, 0] : QString) ∧
      ([0xD800, 0] : QString).takeWhile (fun c => c != 0) = [0xD800] ∧
      row_extractor_QString.extract (some (c_str (toStdString [0xD800, 0]))) = some [0x3F] ∧
      row_extractor_QString.extract (some (c_str (toStdString [0xD800, 0])))
        ≠ some (([0xD800, 0] : QString).takeWhile (fun c => c != 0)) := by
  decide

/-- C9 (amended): for every QString containing U+0000, extraction from its
byte form yields what it yields for the part before the first U+0000 alone;
that is this part itself when the part is valid UTF-16 and does not begin with
U+FEFF; and in every case the result differs from the string. -/
theorem C9_terminator_truncates (v : QString) (h : (0 : QChar) ∈ v) :
    row_extractor_QString.extract (some (c_str (toStdString v)))
        = row_extractor_QString.extract
            (some (c_str (toStdString (v.takeWhile (fun c => c != 0))))) ∧
      (isValidUtf16 (v.takeWhile (fun c => c != 0)) = true →
        (v.takeWhile (fun c => c != 0)).head? ≠ some 0xFEFF →
        row_extractor_QString.extract (some (c_str (toStdString v)))
          = some (v.takeWhile (fun c => c != 0))) ∧
      row_extractor_QString.extract (some (c_str (toStdString v))) ≠ some v := by
  have hcut : roundTrip v = roundTrip (v.takeWhile (fun c => c != 0)) := by
    rw [roundTrip_eq, roundTrip_eq, takeWhile_takeWhile_ne_zero]
  refine ⟨hcut, fun hvalid hbom => ?_, fun hc => ?_⟩
  · exact hcut.trans (roundTrip_of_valid _ hvalid (zero_not_mem_takeWhile v) hbom)
  · exact roundTrip_zero_not_mem v v hc h

/-- C9 at the string "A", U+0000, "B". -/
theorem C9_terminator_truncates_witness :
    row_extractor_QString.extract (some (c_str (toStdString [0x41, 0, 0x42])))
        = row_extractor_QString.extract
            (some (c_str (toStdString
              (([0x41, 0, 0x42] : QString).takeWhile (fun c => c != 0))))) ∧
      (isValidUtf16 (([0x41, 0, 0x42] : QString).takeWhile (fun c => c != 0)) = true →
        (([0x41, 0, 0x42] : QString).takeWhile (fun c => c != 0)).head? ≠ some 0xFEFF →
        row_extractor_QString.extract (some (c_str (toStdString [0x41, 0, 0x42])))
          = some (([0x41, 0, 0x42] : QString).takeWhile (fun c => c != 0))) ∧
      row_extractor_QString.extract (some (c_str (toStdString [0x41, 0, 0x42])))
        ≠ some [0x41, 0, 0x42] :=
  C9_terminator_truncates [0x41, 0, 0x42] (by decide)

/-- C10 (as stated, refuted): for the string `U+FEFF U+FEFF "A"` a first
store-and-load yields `U+FEFF "A"`, and a second one, of that result, yields
"A". -/
theorem C10_second_trip_loses_bom :
    roundTrip [0xFEFF, 0xFEFF, 0x41] = some [0xFEFF, 0x41] ∧
      roundTrip [0xFEFF, 0x41] = some [0x41] ∧
      (roundTrip [0xFEFF, 0xFEFF, 0x41]).bind roundTrip
        ≠ roundTrip [0xFEFF, 0xFEFF, 0x41] := by
  decide

/-- C10 (amended): for every QString that does not begin with two code
units U+FEFF (values with U+0000 or unpaired surrogates included), a second
store-and-load of the result of the first returns that result unchanged. -/
theorem C10_round_trip_idempotent (v : QString) (h : v.take 2 ≠ [0xFEFF, 0xFEFF]) :
    (roundTrip v).bind roundTrip = roundTrip v ∧
      ∃ w, roundTrip v = some w ∧ roundTrip w = some w := by
  have hw : ∃ w, roundTrip v = some w := ⟨_, roundTrip_eq v⟩
  obtain ⟨w, hw⟩ := hw
  have hfix := roundTrip_fixed v w hw h
  refine ⟨?_, w, hw, hfix⟩
  rw [hw, Option.some_bind, hfix]

/-- C10 at a string with a lone surrogate and a U+0000: `U+D800 "A" U+0000 "B"`. -/
theorem C10_round_trip_idempotent_witness :
    (roundTrip [0xD800, 0x41, 0, 0x42]).bind roundTrip = roundTrip [0xD800, 0x41, 0, 0x42] ∧
      ∃ w, roundTrip [0xD800, 0x41, 0, 0x42] = some w ∧ roundTrip w = some w :=
  C10_round_trip_idempotent [0xD800, 0x41, 0, 0x42] (by decide)

end QtSqliteOrm
